import Mathlib

/-!
Shallow embedding, in Lean 4, of the core signal-processing routines of
`waveformCompare_20170110_master.py` (rotational-seismology comparison of
ring-laser rotation rate against broadband transverse acceleration).

Conventions used throughout:
* machine floats are modelled by exact rationals `ℚ`;
* a NumPy array / Python list of samples is a `List ℚ`;
* `NaN` results ("undefined" markers) are modelled by `Option.none`;
* Python exceptions are modelled by `Except String`;
* calls into external libraries (obspy `xcorr`, obspy `rotate_ne_rt`,
  the scipy anti-alias filter inside obspy `decimate`) are modelled as
  explicit function parameters, since those libraries are not part of the
  repository under verification; every loop, slice, threshold and branch
  of the repository's own code is embedded concretely.
-/

namespace WaveformCompare

/-- Python `max` on a list of floats (defined value on nonempty lists; the
junk value `0` stands in for the `ValueError` Python raises on `max([])`). -/
def pyMax : List ℚ → ℚ
  | [] => 0
  | a :: l => l.foldl max a

/-- Python `min` on a list of floats (junk value `0` on the empty list, where
Python raises `ValueError`). -/
def pyMin : List ℚ → ℚ
  | [] => 0
  | a :: l => l.foldl min a

/-- NumPy `mean` of a list (junk value `0` on the empty list, where NumPy
returns `NaN`). -/
def pyMean (l : List ℚ) : ℚ := l.sum / l.length

/-- Python slice `l[a:b]` for integer indices, with Python's semantics for
negative indices (counted from the end) and out-of-range clamping. -/
def pySlice (l : List ℚ) (a b : ℤ) : List ℚ :=
  let n : ℤ := l.length
  let norm : ℤ → ℕ := fun i => if i < 0 then (n + i).toNat else min i.toNat l.length
  (l.drop (norm a)).take (norm b - norm a)

/-- Elements of `l` at indices `0, k, 2k, ...`: NumPy stride slicing `l[::k]`,
the downsampling step of obspy `decimate`. -/
def everyNth (k : ℕ) (l : List ℚ) : List ℚ :=
  (l.enum.filter (fun p => p.1 % k == 0)).map Prod.snd

/-- Distance classification of `is_local` (source lines 349-369): great-circle
distance `baz0` in metres is converted to degrees by `0.001 * baz0 / 111.11`
and tested by a nested pair of strict comparisons, outer `< 10.0` then inner
`< 3.0`. -/
def is_local (baz0 : ℚ) : String :=
  if 0.001 * baz0 / 111.11 < 10.0 then
    if 0.001 * baz0 / 111.11 < 3.0 then "close" else "local"
  else "non-local"

/-- First index at which a list of floats attains its maximum: NumPy
`argmax` (junk value on the empty list, where NumPy raises). -/
def argmaxQ (l : List ℚ) : ℕ := l.indexOf (pyMax l)

/-- Embedding of `Get_corrcoefs` (source lines 933-972).  `xcorr0` stands for
the external obspy call `xcorr(·, ·, 0)` (zero-lag normalised
cross-correlation, shift argument `0`); `rotra_SR` and `compN_SR` are the
integer-truncated sampling rates of the rotation trace and of the
North-component acceleration trace.  Returns the pair
`(corrcoefs, thres)` exactly as the source does. -/
def Get_corrcoefs (xcorr0 : List ℚ → List ℚ → ℚ) (rotra_SR : ℕ) (rodat : List ℚ)
    (compN_SR : ℕ) (rotate_array : List ℚ) (sec : ℕ) : List ℚ × List ℚ :=
  let corrcoefs := (List.range (rodat.length / (rotra_SR * sec))).map
    (fun i5 => xcorr0
      (pySlice rodat ((rotra_SR * sec * i5 : ℕ) : ℤ)
        ((rotra_SR * sec * (i5 + 1) : ℕ) : ℤ))
      (pySlice rotate_array ((compN_SR * sec * i5 : ℕ) : ℤ)
        ((compN_SR * sec * (i5 + 1) : ℕ) : ℤ)))
  (corrcoefs, List.replicate (corrcoefs.length + 1) 0.75)

/-- Embedding of `phase_vel` (source lines 1100-1149).  `rtdata` is
`rt[0].data`, `rt_SR` the integer-truncated sampling rate, `rotate1` the
transverse component `rotate[1]`, `corrsum` and `backas2` the outputs of
`backas_est`.  The first component is the `phasv` array (one `Option ℚ` per
window actually looped over, `none` standing for the `np.NaN` entries); the
second is `EBA` (`none` for `np.nan`).  Note the source computes
`max(...)` of the raw window samples, with no absolute value, and starts
the loop at `ind_surf` precisely when `ind_band` is `True`. -/
def phase_vel (rtdata : List ℚ) (rt_SR : ℕ) (sec : ℕ) (corrcoefs : List ℚ)
    (rotate1 : List ℚ) (corrsum : List ℚ) (backas2 : List ℚ)
    ( ind_band : Bool) ( ind_surf : ℕ) : List (Option ℚ) × Option ℚ :=
  let start_range := if ind_band then ind_surf else 0
  let phasv := (List.range' start_range (corrcoefs.length - start_range)).map
    (fun i8 =>
      if corrcoefs.getD i8 0 ≥ 0.75 then
        some (0.001 * 0.5 *
          pyMax (pySlice rotate1 ((rt_SR * sec * i8 : ℕ) : ℤ)
            ((rt_SR * sec * (i8 + 1) : ℕ) : ℤ)) /
          pyMax (pySlice rtdata ((rt_SR * sec * i8 : ℕ) : ℤ)
            ((rt_SR * sec * (i8 + 1) : ℕ) : ℤ)))
      else none)
  let EBA : Option ℚ :=
    if pyMax corrsum = 0 then none else some (backas2.getD (argmaxQ corrsum) 0)
  (phasv, EBA)

/-- Embedding of `sn_ratio` (source lines 1152-1179).  `p_arrival` is the
(already integral, being an `np.floor` output) theoretical P-arrival time in
seconds after the first sample, `sam_rate` the integer-truncated sampling
rate.  The source takes `max(full_signal)` (a signed maximum) and the
absolute value of the mean of the noise-window slice. -/
def sn_ratio (full_signal : List ℚ) (p_arrival : ℤ) (sam_rate : ℕ) : ℚ :=
  pyMax full_signal /
    |pyMean (pySlice full_signal ((sam_rate : ℤ) * (p_arrival - 180))
      ((sam_rate : ℤ) * (p_arrival - 100)))|

/-- Concrete trace for the `sn_ratio` refutation: 40 samples at `3` and 40
samples at `-1` of noise (the slice `[0:80]` when `p_arrival = 180` and
`sam_rate = 1`), then a trough of `-5`.  Signed peak `3`, absolute peak `5`;
noise mean `1`, mean of absolute values `2`. -/
def snSig : List ℚ := List.replicate 40 3 ++ List.replicate 40 (-1) ++ [-5]

/-- Concrete zero-lag correlation stand-in for witnesses: the sum of
pointwise products of two windows. -/
def prodSum (a b : List ℚ) : ℚ := (List.zipWith (· * ·) a b).sum

/-- Concrete rotation-rate samples for the `phase_vel` start-index
refutation (sampling rate 1 Hz, window length 2 s, two full windows). -/
def pvRt : List ℚ := [1, 1, 1, 1]

/-- Concrete transverse-acceleration samples for the `phase_vel`
start-index refutation. -/
def pvRot : List ℚ := [1, 1, 1, 1]

/-- One arrival returned by the external travel-time model
(`TauPyModel.get_travel_times`): a phase name and a travel time in
seconds. -/
structure Arrival where
  name : String
  time : ℚ

/-- P-phase family of `ps_arrival_times` (source line 801). -/
def pwave_list : List String :=
  ["P", "p", "Pdiff", "PKiKP", "PKIKP", "PP", "Pb", "Pn", "Pg"]

/-- S-phase family of `ps_arrival_times` (source line 810). -/
def swave_list : List String :=
  ["S", "s", "Sdiff", "SKiKS", "SKIKS", "SS", "Sb", "Sn", "Sg"]

/-- Embedding of `ps_arrival_times` (source lines 794-818) from the point
where the external travel-time model has answered: `tt` is the returned
arrival list for the event's distance and depth.  The source collects the
travel times of the P-family arrivals and of the S-family arrivals and
takes `np.floor(init_sec + min(...))` of each; Python's `min` on an empty
collection raises `ValueError` — the failure the specification names
`NoArrivalFound` — and the P-family failure fires before the S-family
times are reduced. -/
def ps_arrival_times (tt : List Arrival) (init_sec : ℚ) : Except String (ℤ × ℤ) :=
  if (tt.filter (fun a2 => a2.name ∈ pwave_list)).map Arrival.time = [] then
    Except.error "NoArrivalFound"
  else if (tt.filter (fun a3 => a3.name ∈ swave_list)).map Arrival.time = [] then
    Except.error "NoArrivalFound"
  else
    Except.ok
      (⌊init_sec + pyMin ((tt.filter (fun a2 => a2.name ∈ pwave_list)).map Arrival.time)⌋,
       ⌊init_sec + pyMin ((tt.filter (fun a3 => a3.name ∈ swave_list)).map Arrival.time)⌋)

/-- Concrete travel-time answer for the `ps_arrival_times` witness. -/
def ttW : List Arrival := [⟨"P", 21 / 2⟩, ⟨"PP", 36 / 5⟩, ⟨"S", 20⟩, ⟨"X", 1⟩]

/-- A single obspy trace: absolute start time (s), sampling rate (Hz) and
sample data. -/
structure Trace where
  start : ℚ
  rate : ℚ
  data : List ℚ

instance : Inhabited Trace := ⟨⟨0, 0, []⟩⟩

/-- End time of a trace, obspy convention: start time plus
`(npts - 1) / sampling_rate`. -/
def traceEnd (tr : Trace) : ℚ := tr.start + ((tr.data.length : ℚ) - 1) / tr.rate

/-- Model of obspy `Trace.trim(t1, t2, nearest_sample=True)` (no padding):
the start cut falls on the trace's own sample nearest to `t1` (never
before the first sample), the end cut on the sample nearest to `t2`;
samples outside the data are clamped.  This is the external obspy call
made four times at source lines 574-577. -/
def trimTrace (t1 t2 : ℚ) (tr : Trace) : Trace :=
  let i0 : ℤ := max 0 (round ((t1 - tr.start) * tr.rate))
  let s1 : ℚ := tr.start + (i0 : ℚ) / tr.rate
  let i1 : ℤ := round ((t2 - s1) * tr.rate)
  { start := s1, rate := tr.rate, data := (tr.data.drop i0.toNat).take (i1 + 1).toNat }

/-- Embedding of the channel-alignment block of `remove_instr_resp`
(source lines 570-579): `startaim` is the maximum start time and `endtaim`
the minimum end time over the four main channels (`ac + rt`), and all four
main channels and both P-coda streams are trimmed to `[startaim, endtaim]`.
The preceding detrend/taper/deconvolution stages (external obspy calls)
rescale sample values but change no start time, sampling rate or sample
count, so the alignment block is embedded from the post-response state.
obspy raises (`DataGapError` in the specification's taxonomy) exactly when
the trim is called with `startaim > endtaim`.  `startaim` is the maximum
start time over the four main channels (source line 571). -/
def startaim (ac rt : List Trace) : ℚ := pyMax ((ac ++ rt).map Trace.start)

/-- The `endtaim` of `remove_instr_resp` (source line 572): the minimum
end time over the four main channels. -/
def endtaim (ac rt : List Trace) : ℚ := pyMin ((ac ++ rt).map traceEnd)

/-- The trim block itself (source lines 574-577): all four main channels
and both P-coda streams are trimmed to `[startaim, endtaim]`, failing when
the interval is inverted. -/
def remove_instr_resp_trim (rt ac rt_pcoda ac_pcoda : List Trace) :
    Except String (List Trace × List Trace × List Trace × List Trace) :=
  if endtaim ac rt < startaim ac rt then Except.error "DataGapError"
  else Except.ok
    (rt.map (trimTrace (startaim ac rt) (endtaim ac rt)),
     ac.map (trimTrace (startaim ac rt) (endtaim ac rt)),
     rt_pcoda.map (trimTrace (startaim ac rt) (endtaim ac rt)),
     ac_pcoda.map (trimTrace (startaim ac rt) (endtaim ac rt)))

/-- Concrete rotation stream (sample grid aligned with the acceleration
channels) for the trim-alignment witness. -/
def rtW7 : List Trace := [⟨1, 1, [5, 6, 7]⟩]

/-- Concrete acceleration stream for the trim-alignment witness. -/
def acW7 : List Trace := [⟨0, 1, [1, 2, 3, 4]⟩, ⟨0, 1, [1, 2, 3, 4]⟩, ⟨2, 1, [9, 9, 9]⟩]

/-- Concrete rotation stream whose sample grid is offset by `2/5` s from
the acceleration channels, for the trim-alignment refutation. -/
def rtM : List Trace := [⟨0, 1, [0, 0, 0]⟩]

/-- Concrete acceleration stream offset by `2/5` s, for the trim-alignment
refutation. -/
def acM : List Trace := [⟨2 / 5, 1, [0, 0, 0]⟩, ⟨2 / 5, 1, [0, 0, 0]⟩, ⟨2 / 5, 1, [0, 0, 0]⟩]

/-- Truncation of a trace to its first `n` samples: the in-place
`trr.data = trr.data[0: int(1800 * rt[0].stats.sampling_rate)]` of
`resample`. -/
def traceTrunc (n : ℕ) (tr : Trace) : Trace := { tr with data := tr.data.take n }

/-- Model of obspy `Stream.decimate(factor)` on one trace: an anti-alias
lowpass (the external scipy filter, here the parameter `aa`) followed by
downsampling `data[::factor]`; the sampling rate is divided by the
factor. -/
def decimate (aa : ℕ → List ℚ → List ℚ) (factor : ℕ) (tr : Trace) : Trace :=
  { tr with rate := tr.rate / (factor : ℚ), data := everyNth factor (aa factor tr.data) }

/-- Embedding of `resample` (source lines 404-467).  `aa` is the external
anti-alias filter inside obspy `decimate`; `rt` is the rotation stream and
`ac` the three-component acceleration stream.  For `local` and `close`
events every channel is first truncated in place to
`int(1800 * rt[0].stats.sampling_rate)` samples, the P-coda streams are
copies of the truncated (undecimated) data and the main streams are then
decimated by 2; for `non-local` events nothing is truncated, the P-coda
copies are decimated by 2 and the main streams by 4.  Returns
`(rt, ac, rt_pcoda, ac_pcoda, sec, cutoff, cutoff_pc)`; `none` models the
`NameError` the Python code would raise for any other class string (no
else branch). -/
def resample (aa : ℕ → List ℚ → List ℚ) (isLoc : String) (rt ac : List Trace) :
    Option (List Trace × List Trace × List Trace × List Trace × ℕ × ℚ × ℚ) :=
  let cutoff_pc : ℚ := 0.5
  if isLoc = "local" then
    let tl := (⌊1800 * (rt.headI).rate⌋).toNat
    let rt1 := rt.map (traceTrunc tl)
    let ac1 := ac.map (traceTrunc tl)
    some (rt1.map (decimate aa 2), ac1.map (decimate aa 2), rt1, ac1, 5, 2.0, cutoff_pc)
  else if isLoc = "non-local" then
    some (rt.map (decimate aa 4), ac.map (decimate aa 4),
      rt.map (decimate aa 2), ac.map (decimate aa 2), 120, 1.0, cutoff_pc)
  else if isLoc = "close" then
    let tl := (⌊1800 * (rt.headI).rate⌋).toNat
    let rt1 := rt.map (traceTrunc tl)
    let ac1 := ac.map (traceTrunc tl)
    some (rt1.map (decimate aa 2), ac1.map (decimate aa 2), rt1, ac1, 3, 4.0, cutoff_pc)
  else none

/-- Identity stand-in for the external anti-alias filter, used in concrete
witnesses. -/
def aaId : ℕ → List ℚ → List ℚ := fun _ l => l

/-- Concrete rotation stream for the `resample` witness. -/
def rtW : List Trace := [⟨0, 1, [1, 2, 3]⟩]

/-- Concrete three-component acceleration stream for the `resample`
witness. -/
def acW : List Trace := [⟨0, 1, [4, 5, 6]⟩, ⟨0, 1, [7, 8, 9]⟩, ⟨0, 1, [10, 11, 12]⟩]

/-- Embedding of `backas_est` (source lines 1035-1097).  `xcorr0` stands
for the external obspy `xcorr(·, ·, 0)` call and `rotT` for the transverse
component `rotate_ne_rt(·, ·, azimuth)[1]` of the external obspy rotation.
The S-wave-to-surface-wave interval `[min_sw, max_lwf]` is cut out of the
rotation and horizontal acceleration data (indices rounded to samples),
360 candidate azimuths at 1° step are scanned with fixed 30-second
sub-windows, and for each candidate the correlation coefficients at or
above 0.9 are summed (others contribute 0.0).  Returns
`(corrsum, backas2, max_ebaz_xcoef, best_ebaz)`; the grid and the two
loops are named below and assembled in `backas_est`.  `backas2_grid` is
`np.linspace(0, 359, 360)`, the whole-degree candidate azimuths. -/
def backas2_grid : List ℚ := (List.range 360).map (fun j : ℕ => (j : ℚ))

/-- The `corrbaz2` grid of `backas_est` (source lines 1056-1078): one row
of windowed correlation coefficients per candidate azimuth `0..359`, over
the `[min_sw, max_lwf]` cut of the data, with 30-second sub-windows. -/
def backas_corrbaz2 (xcorr0 : List ℚ → List ℚ → ℚ)
    (rotT : List ℚ → List ℚ → ℚ → List ℚ) (rt_SR : ℕ) (rtdata acn ace : List ℚ)
    (min_sw max_lwf : ℚ) : List (List ℚ) :=
  let min_sw_rt : ℤ := round (min_sw * (rt_SR : ℚ))
  let max_lwf_rt : ℤ := round (max_lwf * (rt_SR : ℚ))
  let rt2 := pySlice rtdata min_sw_rt max_lwf_rt
  let acn2 := pySlice acn min_sw_rt max_lwf_rt
  let ace2 := pySlice ace min_sw_rt max_lwf_rt
  let sec2 : ℕ := 30
  (List.range 360).map (fun j3 : ℕ =>
    (List.range (rt2.length / (rt_SR * sec2))).map (fun j4 : ℕ =>
      xcorr0
        (pySlice rt2 ((rt_SR * sec2 * j4 : ℕ) : ℤ) ((rt_SR * sec2 * (j4 + 1) : ℕ) : ℤ))
        (pySlice (rotT acn2 ace2 ((j3 : ℚ)))
          ((rt_SR * sec2 * j4 : ℕ) : ℤ) ((rt_SR * sec2 * (j4 + 1) : ℕ) : ℤ))))

/-- The `corrsum` loop of `backas_est` (source lines 1079-1091): per
azimuth row, sum the coefficients at or above the 0.9 threshold, the rest
contributing `0.0`. -/
def corrsum_of (corrbaz2 : List (List ℚ)) : List ℚ :=
  corrbaz2.map (fun row => (row.map (fun c => if c ≥ 0.9 then c else 0.0)).sum)

def backas_est (xcorr0 : List ℚ → List ℚ → ℚ) (rotT : List ℚ → List ℚ → ℚ → List ℚ)
    (rt_SR : ℕ) (rtdata acn ace : List ℚ) (min_sw max_lwf : ℚ) :
    List ℚ × List ℚ × ℚ × ℚ :=
  let corrbaz2 := backas_corrbaz2 xcorr0 rotT rt_SR rtdata acn ace min_sw max_lwf
  let corrsum := corrsum_of corrbaz2
  let best_ebaz := backas2_grid.getD (argmaxQ corrsum) 0
  let max_ebaz_xcoef := pyMax (corrbaz2.getD (⌊best_ebaz⌋).toNat [])
  (corrsum, backas2_grid, max_ebaz_xcoef, best_ebaz)

/-- Constant correlation stand-in (every window pair fully correlated),
for concrete witnesses. -/
def oneCorr : List ℚ → List ℚ → ℚ := fun _ _ => 1

/-- Constant transverse-rotation stand-in for concrete witnesses. -/
def zeroRotT : List ℚ → List ℚ → ℚ → List ℚ := fun _ _ _ => List.replicate 30 0

/-- Thirty seconds of 1 Hz rotation-rate data for the backazimuth
witnesses. -/
def rt30 : List ℚ := List.replicate 30 1

end WaveformCompare

namespace WaveformCompare

/-- Auxiliary: indexing a mapped `List.range'`. -/
theorem getD_map_range' {α : Type} (f : ℕ → α) (s n j : ℕ) (d : α) (h : j < n) :
    ((List.range' s n).map f).getD j d = f (s + j) := by
  rw [List.getD_eq_get?, List.get?_map]
  rw [List.get?_eq_get (by simpa using h)]
  simp [List.get_range']

/-- Auxiliary: indexing a mapped `List.range`. -/
theorem getD_map_range {α : Type} (f : ℕ → α) (n j : ℕ) (d : α) (h : j < n) :
    ((List.range n).map f).getD j d = f j := by
  rw [List.getD_eq_get?, List.get?_map]
  rw [List.get?_eq_get (by simpa using h)]
  simp

/-- Auxiliary: a Python slice `l[a:b]` with natural bounds, `b` within the
list, is the usual drop-and-take. -/
theorem pySlice_of_le (l : List ℚ) (a b : ℕ) (hab : a ≤ b) (hb : b ≤ l.length) :
    pySlice l (a : ℤ) (b : ℤ) = (l.drop a).take (b - a) := by
  have ha : a ≤ l.length := hab.trans hb
  simp only [pySlice]
  have h1 : ¬ ((a : ℤ) < 0) := by omega
  have h2 : ¬ ((b : ℤ) < 0) := by omega
  simp [h1, h2, Int.toNat_natCast, min_eq_left ha, min_eq_left hb]

/-- Auxiliary: a Python slice with nonnegative integer bounds whose upper
bound lies within the list. -/
theorem pySlice_of_nonneg (l : List ℚ) (a b : ℤ) (ha : 0 ≤ a) (hab : a ≤ b)
    (hb : b.toNat ≤ l.length) :
    pySlice l a b = (l.drop a.toNat).take (b.toNat - a.toNat) := by
  simp only [pySlice]
  have h1 : ¬ (a < 0) := not_lt.mpr ha
  have h2 : ¬ (b < 0) := by omega
  have hab' : a.toNat ≤ b.toNat := by omega
  simp [h1, h2, min_eq_left (hab'.trans hb), min_eq_left hb]

/-- Auxiliary: the `corrcoefs` component of `Get_corrcoefs`, written as a
mapped index range. -/
theorem Get_corrcoefs_fst_eq (xcorr0 : List ℚ → List ℚ → ℚ) (rotra_SR : ℕ)
    (rodat : List ℚ) (compN_SR : ℕ) (rotate_array : List ℚ) (sec : ℕ) :
    (Get_corrcoefs xcorr0 rotra_SR rodat compN_SR rotate_array sec).1 =
      (List.range (rodat.length / (rotra_SR * sec))).map
        (fun i5 => xcorr0
          (pySlice rodat ((rotra_SR * sec * i5 : ℕ) : ℤ)
            ((rotra_SR * sec * (i5 + 1) : ℕ) : ℤ))
          (pySlice rotate_array ((compN_SR * sec * i5 : ℕ) : ℤ)
            ((compN_SR * sec * (i5 + 1) : ℕ) : ℤ))) := rfl

/-- Auxiliary: unfolding `pyMax` on a nonempty list. -/
theorem pyMax_cons (a : ℚ) (l : List ℚ) : pyMax (a :: l) = l.foldl max a := rfl

/-- Auxiliary: folding `max` over a constant list. -/
theorem foldl_max_replicate (n : ℕ) (a b : ℚ) :
    (List.replicate n a).foldl max b = if n = 0 then b else max b a := by
  induction n generalizing b with
  | zero => simp
  | succ k ih =>
    rw [List.replicate_succ, List.foldl_cons, ih]
    rcases Nat.eq_zero_or_pos k with hk | hk
    · simp [hk]
    · have hk' : k ≠ 0 := Nat.pos_iff_ne_zero.mp hk
      simp [hk', max_assoc, max_self]

/-- Auxiliary: the signed maximum of the concrete trace `snSig` is `3`. -/
theorem pyMax_snSig : pyMax snSig = 3 := by
  have h : snSig = 3 :: (List.replicate 39 (3 : ℚ) ++ (List.replicate 40 (-1) ++ [-5])) := by
    show (List.replicate 40 (3 : ℚ) ++ List.replicate 40 (-1)) ++ [-5] = _
    rw [List.append_assoc]
    rfl
  rw [h, pyMax_cons, List.foldl_append, List.foldl_append,
    foldl_max_replicate, foldl_max_replicate]
  norm_num [List.foldl]

/-- Auxiliary: the first eighty samples of `snSig` are its noise block. -/
theorem take80_snSig :
    snSig.take 80 = List.replicate 40 (3 : ℚ) ++ List.replicate 40 (-1) :=
  List.take_left' (by simp)

/-- Auxiliary: the noise-window slice of `snSig`. -/
theorem pySlice_snSig :
    pySlice snSig 0 80 = List.replicate 40 (3 : ℚ) ++ List.replicate 40 (-1) := by
  rw [pySlice_of_nonneg snSig 0 80 le_rfl (by norm_num) (by simp [snSig])]
  simpa using take80_snSig

/-- Auxiliary: the mean of the noise block of `snSig` is `1`. -/
theorem pyMean_noise_snSig :
    pyMean (List.replicate 40 (3 : ℚ) ++ List.replicate 40 (-1)) = 1 := by
  simp [pyMean, List.sum_replicate]
  norm_num

/-- Auxiliary: the `phasv` component of `phase_vel`, written as a mapped
index range. -/
theorem phase_vel_phasv_eq (rtdata : List ℚ) (rt_SR sec : ℕ)
    (cc rotate1 cs b2 : List ℚ) (b : Bool) (u : ℕ) :
    (phase_vel rtdata rt_SR sec cc rotate1 cs b2 b u).1 =
      (List.range' (if b then u else 0) (cc.length - (if b then u else 0))).map
        (fun i8 =>
          if cc.getD i8 0 ≥ 0.75 then
            some (0.001 * 0.5 *
              pyMax (pySlice rotate1 ((rt_SR * sec * i8 : ℕ) : ℤ)
                ((rt_SR * sec * (i8 + 1) : ℕ) : ℤ)) /
              pyMax (pySlice rtdata ((rt_SR * sec * i8 : ℕ) : ℤ)
                ((rt_SR * sec * (i8 + 1) : ℕ) : ℤ)))
          else none) := rfl

/-- Auxiliary: the entry of `phasv` for source window index `i` (at list
position `i - start_range`). -/
theorem phase_vel_entry (rtdata : List ℚ) (rt_SR sec : ℕ)
    (cc rotate1 cs b2 : List ℚ) (b : Bool) (u i : ℕ)
    (hi : i < cc.length) (hstart : (if b then u else 0) ≤ i) :
    (phase_vel rtdata rt_SR sec cc rotate1 cs b2 b u).1.getD
        (i - (if b then u else 0)) none =
      (if cc.getD i 0 ≥ 0.75 then
        some (0.001 * 0.5 *
          pyMax (pySlice rotate1 ((rt_SR * sec * i : ℕ) : ℤ)
            ((rt_SR * sec * (i + 1) : ℕ) : ℤ)) /
          pyMax (pySlice rtdata ((rt_SR * sec * i : ℕ) : ℤ)
            ((rt_SR * sec * (i + 1) : ℕ) : ℤ)))
      else none) := by
  rw [phase_vel_phasv_eq]
  rw [getD_map_range' _ _ _ _ _ (by omega)]
  rw [show (if b then u else 0) + (i - (if b then u else 0)) = i from by omega]

/-- C5: `is_local` classifies as `close` exactly when `0.001*d/111.11 < 3.0`,
as `local` exactly when `3.0 ≤ 0.001*d/111.11 < 10.0`, and as `non-local`
exactly when `0.001*d/111.11 ≥ 10.0`; both comparisons are strict, so the
boundary values `3.0` and `10.0` fall into the larger class. -/
theorem is_local_classification (d : ℚ) :
    (is_local d = "close" ↔ 0.001 * d / 111.11 < 3.0) ∧
    (is_local d = "local" ↔ 3.0 ≤ 0.001 * d / 111.11 ∧ 0.001 * d / 111.11 < 10.0) ∧
    (is_local d = "non-local" ↔ 10.0 ≤ 0.001 * d / 111.11) := by
  unfold is_local
  split_ifs with h10 h3
  · exact ⟨iff_of_true rfl h3,
      iff_of_false (by decide) (fun h => absurd h3 (not_lt.mpr h.1)),
      iff_of_false (by decide) (fun h => absurd h10 (not_lt.mpr h))⟩
  · exact ⟨iff_of_false (by decide) h3,
      iff_of_true rfl ⟨not_lt.mp h3, h10⟩,
      iff_of_false (by decide) (fun h => absurd h10 (not_lt.mpr h))⟩
  · exact ⟨iff_of_false (by decide) (fun h => h10 (h.trans (by norm_num))),
      iff_of_false (by decide) (fun h => h10 h.2),
      iff_of_true rfl (not_lt.mp h10)⟩

/-- C6: `Get_corrcoefs` returns exactly `⌊n / (r·sec)⌋` correlation
coefficients for a rotation array of `n` samples and integer rotation rate
`r` (the last partial window is dropped by the floor division), and the
`i`-th coefficient is the zero-lag coefficient (`xcorr0`, the obspy `xcorr`
call with shift `0`) of the `i`-th non-overlapping window pair: `r·sec`
rotation samples against `compN_SR·sec` acceleration samples (the hypothesis
`hacc` states that the acceleration array covers the windowed region, as it
does in the pipeline where both series span the same time interval). -/
theorem Get_corrcoefs_windows (xcorr0 : List ℚ → List ℚ → ℚ)
    (rotra_SR : ℕ) (rodat : List ℚ) (compN_SR : ℕ) (rotate_array : List ℚ)
    (sec : ℕ)
    (hacc : (rodat.length / (rotra_SR * sec)) * (compN_SR * sec) ≤
      rotate_array.length) :
    (Get_corrcoefs xcorr0 rotra_SR rodat compN_SR rotate_array sec).1.length =
        rodat.length / (rotra_SR * sec) ∧
    ∀ i, i < rodat.length / (rotra_SR * sec) →
      (Get_corrcoefs xcorr0 rotra_SR rodat compN_SR rotate_array sec).1.getD i 0 =
        xcorr0 ((rodat.drop (rotra_SR * sec * i)).take (rotra_SR * sec))
               ((rotate_array.drop (compN_SR * sec * i)).take (compN_SR * sec)) := by
  constructor
  · rw [Get_corrcoefs_fst_eq, List.length_map, List.length_range]
  · intro i hi
    have hrs : 0 < rotra_SR * sec := by
      rcases Nat.eq_zero_or_pos (rotra_SR * sec) with h | h
      · rw [h] at hi; simp [Nat.div_zero] at hi
      · exact h
    have hb1 : rotra_SR * sec * (i + 1) ≤ rodat.length := by
      have h := (Nat.le_div_iff_mul_le hrs).mp (Nat.succ_le_of_lt hi)
      calc rotra_SR * sec * (i + 1) = (i + 1) * (rotra_SR * sec) := Nat.mul_comm _ _
        _ ≤ rodat.length := h
    have hb2 : compN_SR * sec * (i + 1) ≤ rotate_array.length :=
      calc compN_SR * sec * (i + 1)
          ≤ compN_SR * sec * (rodat.length / (rotra_SR * sec)) :=
            Nat.mul_le_mul_left _ (Nat.succ_le_of_lt hi)
        _ = (rodat.length / (rotra_SR * sec)) * (compN_SR * sec) := Nat.mul_comm _ _
        _ ≤ rotate_array.length := hacc
    rw [Get_corrcoefs_fst_eq]
    rw [getD_map_range _ _ _ _ hi]
    rw [pySlice_of_le _ _ _ (Nat.mul_le_mul_left _ (Nat.le_succ i)) hb1]
    rw [pySlice_of_le _ _ _ (Nat.mul_le_mul_left _ (Nat.le_succ i)) hb2]
    rw [show rotra_SR * sec * (i + 1) - rotra_SR * sec * i = rotra_SR * sec from by
      rw [Nat.mul_succ]; omega]
    rw [show compN_SR * sec * (i + 1) - compN_SR * sec * i = compN_SR * sec from by
      rw [Nat.mul_succ]; omega]

/-- C6 witness: a concrete evaluation of the window-count theorem with a
6-sample rotation array, rate 1 Hz, 2-second windows and summed products as
the correlation stand-in. -/
theorem Get_corrcoefs_windows_witness :
    (Get_corrcoefs prodSum 1 [1, 2, 3, 4, 5, 6] 1 [1, 0, 1, 0, 1, 0] 2).1.length = 3 ∧
    (Get_corrcoefs prodSum 1 [1, 2, 3, 4, 5, 6] 1 [1, 0, 1, 0, 1, 0] 2).1.getD 1 0 = 3 := by
  obtain ⟨h1, h2⟩ := Get_corrcoefs_windows prodSum
    1 [1, 2, 3, 4, 5, 6] 1 [1, 0, 1, 0, 1, 0] 2 (by decide)
  refine ⟨h1.trans (by decide), (h2 1 (by decide)).trans ?_⟩
  norm_num [prodSum]

/-- C4 counterexample: on `snSig` (noise window holding forty `3` samples
and forty `-1` samples, overall trough `-5`) with `p_arrival = 180` and
`sam_rate = 1`, the source returns `max(signal)/|mean(noise)| = 3/1 = 3`,
whereas the claim's peak-absolute over mean-absolute formula would give
`5 / 2`; so the claim is false on this input. -/
theorem sn_ratio_counterexample :
    sn_ratio snSig 180 1 = 3 ∧ ((3 : ℚ) ≠ 5 / 2) := by
  refine ⟨?_, by norm_num⟩
  unfold sn_ratio
  rw [show ((1 : ℕ) : ℤ) * ((180 : ℤ) - 180) = 0 from by norm_num]
  rw [show ((1 : ℕ) : ℤ) * ((180 : ℤ) - 100) = 80 from by norm_num]
  rw [pySlice_snSig, pyMean_noise_snSig, pyMax_snSig]
  norm_num

/-- C4 amended: for a trace whose noise window lies inside the data and a
P arrival at least 180 s into the trace, `sn_ratio` returns the signed
maximum of the whole trace divided by the absolute value of the arithmetic
mean of the `80·r` noise-window samples starting `180` s before `p`. -/
theorem sn_ratio_formula (sig : List ℚ) (p : ℤ) (r : ℕ) (hp : 180 ≤ p)
    (hlen : ((r : ℤ) * (p - 100)).toNat ≤ sig.length) :
    sn_ratio sig p r =
      pyMax sig /
        |pyMean ((sig.drop ((r : ℤ) * (p - 180)).toNat).take (80 * r))| := by
  have ha : 0 ≤ (r : ℤ) * (p - 180) := by
    have : (0 : ℤ) ≤ p - 180 := by omega
    positivity
  have hab : (r : ℤ) * (p - 180) ≤ (r : ℤ) * (p - 100) := by
    have h1 : (p - 180 : ℤ) ≤ p - 100 := by omega
    exact mul_le_mul_of_nonneg_left h1 (Int.natCast_nonneg r)
  have hsub : ((r : ℤ) * (p - 100)).toNat - ((r : ℤ) * (p - 180)).toNat = 80 * r := by
    have h : (r : ℤ) * (p - 100) - (r : ℤ) * (p - 180) = (80 * r : ℕ) := by
      push_cast; ring
    omega
  unfold sn_ratio
  rw [pySlice_of_nonneg _ _ _ ha hab hlen, hsub]

/-- C4 witness: the amended formula evaluated on the concrete trace
`snSig`. -/
theorem sn_ratio_formula_witness : sn_ratio snSig 180 1 = 3 := by
  have h := sn_ratio_formula snSig 180 1 (by norm_num) (by simp [snSig])
  rw [h]
  rw [show (((1 : ℕ) : ℤ) * ((180 : ℤ) - 180)).toNat = 0 from by norm_num]
  rw [List.drop_zero]
  rw [show (80 * 1 : ℕ) = 80 from by norm_num]
  rw [take80_snSig, pyMean_noise_snSig, pyMax_snSig]
  norm_num

/-- C3 counterexample: with one window of correlation `1`, transverse
acceleration window `[-4, -2]` and rotation window `[2, 1]`, the source's
`max` of the raw (signed) samples yields phase velocity
`0.001·0.5·(-2)/2 = -1/2000`, not the claim's
`0.001·0.5·max|accel|/max|rot| = 0.001·0.5·4/2 = 1/1000`; the claim is
false on this input. -/
theorem phase_vel_formula_counterexample :
    (phase_vel [2, 1] 1 2 [1] [-4, -2] [] [] false 0).1 = [some (-(1 / 2000))] ∧
    ((-(1 / 2000) : ℚ) ≠ 0.001 * 0.5 * 4 / 2) := by
  have h := phase_vel_entry [2, 1] 1 2 [1] [-4, -2] [] [] false 0 0
    (by norm_num) (by norm_num)
  refine ⟨?_, by norm_num⟩
  have hr : (if ([1] : List ℚ).getD 0 0 ≥ 0.75 then
      some (0.001 * 0.5 *
        pyMax (pySlice [-4, -2] ((1 * 2 * 0 : ℕ) : ℤ) ((1 * 2 * (0 + 1) : ℕ) : ℤ)) /
        pyMax (pySlice [2, 1] ((1 * 2 * 0 : ℕ) : ℤ) ((1 * 2 * (0 + 1) : ℕ) : ℤ)))
    else none) = some (-(1 / 2000)) := by
    rw [if_pos (by norm_num : ([1] : List ℚ).getD 0 0 ≥ 0.75)]
    rw [pySlice_of_le [-4, -2] (1 * 2 * 0) (1 * 2 * (0 + 1)) (by norm_num) (by norm_num)]
    rw [pySlice_of_le [2, 1] (1 * 2 * 0) (1 * 2 * (0 + 1)) (by norm_num) (by norm_num)]
    norm_num [pyMax]
  have hlist : (phase_vel [2, 1] 1 2 [1] [-4, -2] [] [] false 0).1.getD 0 none =
      some (-(1 / 2000)) := h.trans hr
  rw [phase_vel_phasv_eq] at hlist ⊢
  rw [show List.range' (if (false : Bool) then 0 else 0)
      (([1] : List ℚ).length - (if (false : Bool) then 0 else 0)) = [0] from by
    norm_num [List.range']]
  rw [show List.range' (if (false : Bool) then 0 else 0)
      (([1] : List ℚ).length - (if (false : Bool) then 0 else 0)) = [0] from by
    norm_num [List.range']] at hlist
  simpa using hlist

/-- C3 amended: for every window index `i` considered by `phase_vel` (from
`start_range` on), if the window's correlation coefficient is `≥ 0.75` the
returned velocity is `0.001 · 0.5 · (signed maximum of the transverse
acceleration window) / (signed maximum of the rotation-rate window)` — the
signed maxima of the raw samples, not maxima of absolute values — and if
the coefficient is `< 0.75` the entry is undefined (`NaN`, here `none`). -/
theorem phase_vel_window_gating (rtdata : List ℚ) (rt_SR sec : ℕ)
    (cc rotate1 cs b2 : List ℚ) (b : Bool) (u i : ℕ)
    (hi : i < cc.length) (hstart : (if b then u else 0) ≤ i) :
    (0.75 ≤ cc.getD i 0 →
      (phase_vel rtdata rt_SR sec cc rotate1 cs b2 b u).1.getD
          (i - (if b then u else 0)) none =
        some (0.001 * 0.5 *
          pyMax (pySlice rotate1 ((rt_SR * sec * i : ℕ) : ℤ)
            ((rt_SR * sec * (i + 1) : ℕ) : ℤ)) /
          pyMax (pySlice rtdata ((rt_SR * sec * i : ℕ) : ℤ)
            ((rt_SR * sec * (i + 1) : ℕ) : ℤ)))) ∧
    (cc.getD i 0 < 0.75 →
      (phase_vel rtdata rt_SR sec cc rotate1 cs b2 b u).1.getD
          (i - (if b then u else 0)) none = none) := by
  constructor
  · intro h75
    rw [phase_vel_entry rtdata rt_SR sec cc rotate1 cs b2 b u i hi hstart]
    rw [if_pos h75]
  · intro hlt
    rw [phase_vel_entry rtdata rt_SR sec cc rotate1 cs b2 b u i hi hstart]
    rw [if_neg (not_le.mpr hlt)]

/-- C3 witness: the amended per-window formula evaluated concretely on an
above-threshold window and on a below-threshold window. -/
theorem phase_vel_window_gating_witness :
    (phase_vel [2, 1] 1 2 [1] [4, 2] [] [] false 0).1.getD 0 none =
        some (1 / 1000) ∧
    (phase_vel [2, 1] 1 2 [(1 : ℚ) / 2] [4, 2] [] [] false 0).1.getD 0 none =
        none := by
  constructor
  · have h := (phase_vel_window_gating [2, 1] 1 2 [1] [4, 2] [] [] false 0 0
      (by norm_num) (by norm_num)).1 (by norm_num)
    refine h.trans ?_
    rw [pySlice_of_le [4, 2] (1 * 2 * 0) (1 * 2 * (0 + 1)) (by norm_num) (by norm_num)]
    rw [pySlice_of_le [2, 1] (1 * 2 * 0) (1 * 2 * (0 + 1)) (by norm_num) (by norm_num)]
    norm_num [pyMax]
  · exact (phase_vel_window_gating [2, 1] 1 2 [(1 : ℚ) / 2] [4, 2] [] [] false 0 0
      (by norm_num) (by norm_num)).2 (by norm_num)

/-- C1 counterexample: with two windows, `ind_surf = 1` and above-threshold
coefficients everywhere, the source's full-band call (`ind_band = False`)
produces two phase-velocity entries — it does not start at `ind_surf`
(which would leave `2 - 1 = 1` entry) — and the per-band call
(`ind_band = True`) produces one entry — it does not start at index `0`
(which would leave `2` entries); so both halves of the claim are false on
this input. -/
theorem phase_vel_start_counterexample :
    (phase_vel pvRt 1 2 [1, 1] pvRot [] [] false 1).1.length ≠ [1, 1].length - 1 ∧
    (phase_vel pvRt 1 2 [1, 1] pvRot [] [] true 1).1.length ≠ [1, 1].length := by
  decide

/-- C1 amended: the start-index asymmetry of `phase_vel` is the reverse of
the claim: the full-band call (made with `ind_band = False` on the main
signal) starts at window index `0` and yields one entry per window, while
each per-band call (`ind_band = True`) starts at window index
`ind_surf = int(min_lwi/sec)`, yielding exactly the suffix of the full-band
result from `ind_surf` on — windows before `ind_surf` produce no entry in
the per-band computations. -/
theorem phase_vel_start_index (rtdata : List ℚ) (rt_SR sec : ℕ)
    (cc rotate1 cs b2 : List ℚ) (u : ℕ) (hu : u ≤ cc.length) :
    (phase_vel rtdata rt_SR sec cc rotate1 cs b2 false u).1.length = cc.length ∧
    (phase_vel rtdata rt_SR sec cc rotate1 cs b2 true u).1.length = cc.length - u ∧
    ∀ j, j < cc.length - u →
      (phase_vel rtdata rt_SR sec cc rotate1 cs b2 true u).1.getD j none =
      (phase_vel rtdata rt_SR sec cc rotate1 cs b2 false u).1.getD (u + j) none := by
  refine ⟨?_, ?_, ?_⟩
  · rw [phase_vel_phasv_eq]; simp
  · rw [phase_vel_phasv_eq]; simp
  · intro j hj
    rw [phase_vel_phasv_eq, phase_vel_phasv_eq]
    rw [getD_map_range' _ _ _ _ _ (by simpa using hj)]
    rw [getD_map_range' _ _ _ _ _ (by simp; omega)]
    simp

/-- C1 witness: the amended start-index behaviour evaluated on the concrete
two-window inputs. -/
theorem phase_vel_start_index_witness :
    (phase_vel pvRt 1 2 [1, 1] pvRot [] [] false 1).1.length = 2 ∧
    (phase_vel pvRt 1 2 [1, 1] pvRot [] [] true 1).1.length = 1 ∧
    (phase_vel pvRt 1 2 [1, 1] pvRot [] [] true 1).1.getD 0 none =
      (phase_vel pvRt 1 2 [1, 1] pvRot [] [] false 1).1.getD 1 none := by
  obtain ⟨h1, h2, h3⟩ :=
    phase_vel_start_index pvRt 1 2 [1, 1] pvRot [] [] 1 (by decide)
  exact ⟨h1.trans (by decide), h2.trans (by decide), h3 0 (by decide)⟩

/-- Auxiliary: a `min`-fold is bounded by its initial value. -/
theorem foldl_min_le_init (l : List ℚ) (b : ℚ) : l.foldl min b ≤ b := by
  induction l generalizing b with
  | nil => simp
  | cons x xs ih =>
    rw [List.foldl_cons]
    exact (ih (min b x)).trans (min_le_left b x)

/-- Auxiliary: a `min`-fold is bounded by every list element. -/
theorem foldl_min_le_mem (l : List ℚ) (b a : ℚ) (ha : a ∈ l) : l.foldl min b ≤ a := by
  induction l generalizing b with
  | nil => simp at ha
  | cons x xs ih =>
    rw [List.foldl_cons]
    rcases List.mem_cons.mp ha with h | h
    · subst h
      exact (foldl_min_le_init xs _).trans (min_le_right b a)
    · exact ih (min b x) h

/-- Auxiliary: a `min`-fold returns its initial value or a list element. -/
theorem foldl_min_mem (l : List ℚ) (b : ℚ) : l.foldl min b = b ∨ l.foldl min b ∈ l := by
  induction l generalizing b with
  | nil => left; rfl
  | cons x xs ih =>
    rw [List.foldl_cons]
    rcases ih (min b x) with h | h
    · rw [h]
      rcases le_total b x with hbx | hbx
      · left; exact min_eq_left hbx
      · right; rw [min_eq_right hbx]; exact List.mem_cons_self x xs
    · right; exact List.mem_cons_of_mem x h

/-- Auxiliary: `pyMin` of a nonempty list is an element of it. -/
theorem pyMin_mem (l : List ℚ) (h : l ≠ []) : pyMin l ∈ l := by
  cases l with
  | nil => exact absurd rfl h
  | cons a t =>
    show t.foldl min a ∈ a :: t
    rcases foldl_min_mem t a with h1 | h1
    · rw [h1]; exact List.mem_cons_self a t
    · exact List.mem_cons_of_mem a h1

/-- Auxiliary: `pyMin` is a lower bound of the list. -/
theorem pyMin_le (l : List ℚ) (a : ℚ) (ha : a ∈ l) : pyMin l ≤ a := by
  cases l with
  | nil => simp at ha
  | cons x t =>
    show t.foldl min x ≤ a
    rcases List.mem_cons.mp ha with h | h
    · subst h; exact foldl_min_le_init t a
    · exact foldl_min_le_mem t x a h

/-- Auxiliary: a `max`-fold dominates its initial value. -/
theorem foldl_max_init_le (l : List ℚ) (b : ℚ) : b ≤ l.foldl max b := by
  induction l generalizing b with
  | nil => simp
  | cons x xs ih =>
    rw [List.foldl_cons]
    exact (le_max_left b x).trans (ih (max b x))

/-- Auxiliary: a `max`-fold dominates every list element. -/
theorem foldl_max_mem_le (l : List ℚ) (b a : ℚ) (ha : a ∈ l) : a ≤ l.foldl max b := by
  induction l generalizing b with
  | nil => simp at ha
  | cons x xs ih =>
    rw [List.foldl_cons]
    rcases List.mem_cons.mp ha with h | h
    · subst h
      exact (le_max_right b a).trans (foldl_max_init_le xs _)
    · exact ih (max b x) h

/-- Auxiliary: a `max`-fold returns its initial value or a list element. -/
theorem foldl_max_mem (l : List ℚ) (b : ℚ) : l.foldl max b = b ∨ l.foldl max b ∈ l := by
  induction l generalizing b with
  | nil => left; rfl
  | cons x xs ih =>
    rw [List.foldl_cons]
    rcases ih (max b x) with h | h
    · rw [h]
      rcases le_total x b with hbx | hbx
      · left; exact max_eq_left hbx
      · right; rw [max_eq_right hbx]; exact List.mem_cons_self x xs
    · right; exact List.mem_cons_of_mem x h

/-- Auxiliary: `pyMax` of a nonempty list is an element of it. -/
theorem pyMax_mem (l : List ℚ) (h : l ≠ []) : pyMax l ∈ l := by
  cases l with
  | nil => exact absurd rfl h
  | cons a t =>
    show t.foldl max a ∈ a :: t
    rcases foldl_max_mem t a with h1 | h1
    · rw [h1]; exact List.mem_cons_self a t
    · exact List.mem_cons_of_mem a h1

/-- Auxiliary: `pyMax` is an upper bound of the list. -/
theorem le_pyMax (l : List ℚ) (a : ℚ) (ha : a ∈ l) : a ≤ pyMax l := by
  cases l with
  | nil => simp at ha
  | cons x t =>
    show a ≤ t.foldl max x
    rcases List.mem_cons.mp ha with h | h
    · subst h; exact foldl_max_init_le t a
    · exact foldl_max_mem_le t x a h

/-- Auxiliary: unfolding `pyMin` on a nonempty list. -/
theorem pyMin_cons (a : ℚ) (l : List ℚ) : pyMin (a :: l) = l.foldl min a := rfl

/-- C8: `ps_arrival_times` filters the travel-time model's arrivals into
the P-family `{P,p,Pdiff,PKiKP,PKIKP,PP,Pb,Pn,Pg}` and the S-family
`{S,s,Sdiff,SKiKS,SKIKS,SS,Sb,Sn,Sg}`; when both families match it returns
`floor(init_sec + t)` with `t` the minimum travel time over each family's
matching arrivals (`pyMin` is shown to be a member of and a lower bound of
the family's times); when either family has zero matching arrivals it
fails with `NoArrivalFound` rather than defaulting. -/
theorem ps_arrival_times_spec (tt : List Arrival) (init_sec : ℚ) :
    ((tt.filter (fun a2 => a2.name ∈ pwave_list) ≠ [] ∧
      tt.filter (fun a3 => a3.name ∈ swave_list) ≠ []) →
      ps_arrival_times tt init_sec =
        Except.ok
          (⌊init_sec +
            pyMin ((tt.filter (fun a2 => a2.name ∈ pwave_list)).map Arrival.time)⌋,
           ⌊init_sec +
            pyMin ((tt.filter (fun a3 => a3.name ∈ swave_list)).map Arrival.time)⌋) ∧
      pyMin ((tt.filter (fun a2 => a2.name ∈ pwave_list)).map Arrival.time) ∈
        (tt.filter (fun a2 => a2.name ∈ pwave_list)).map Arrival.time ∧
      (∀ t ∈ (tt.filter (fun a2 => a2.name ∈ pwave_list)).map Arrival.time,
        pyMin ((tt.filter (fun a2 => a2.name ∈ pwave_list)).map Arrival.time) ≤ t) ∧
      pyMin ((tt.filter (fun a3 => a3.name ∈ swave_list)).map Arrival.time) ∈
        (tt.filter (fun a3 => a3.name ∈ swave_list)).map Arrival.time ∧
      (∀ t ∈ (tt.filter (fun a3 => a3.name ∈ swave_list)).map Arrival.time,
        pyMin ((tt.filter (fun a3 => a3.name ∈ swave_list)).map Arrival.time) ≤ t)) ∧
    ((tt.filter (fun a2 => a2.name ∈ pwave_list) = [] ∨
      tt.filter (fun a3 => a3.name ∈ swave_list) = []) →
      ps_arrival_times tt init_sec = Except.error "NoArrivalFound") := by
  constructor
  · rintro ⟨hp, hs⟩
    have hp' : (tt.filter (fun a2 => a2.name ∈ pwave_list)).map Arrival.time ≠ [] := by
      simpa using hp
    have hs' : (tt.filter (fun a3 => a3.name ∈ swave_list)).map Arrival.time ≠ [] := by
      simpa using hs
    refine ⟨?_, pyMin_mem _ hp', fun t ht => pyMin_le _ t ht,
      pyMin_mem _ hs', fun t ht => pyMin_le _ t ht⟩
    unfold ps_arrival_times
    rw [if_neg hp', if_neg hs']
  · rintro (hp | hs)
    · unfold ps_arrival_times
      rw [if_pos (by simp [hp])]
    · by_cases hp : (tt.filter (fun a2 => a2.name ∈ pwave_list)).map Arrival.time = []
      · unfold ps_arrival_times
        rw [if_pos hp]
      · unfold ps_arrival_times
        rw [if_neg hp, if_pos (by simp [hs])]

/-- C8 witness: the arrival-time computation evaluated on a concrete
travel-time answer with P-family minimum `36/5` and S-family minimum
`20`, at `init_sec = 3`. -/
theorem ps_arrival_times_spec_witness : ps_arrival_times ttW 3 = Except.ok (10, 23) := by
  have hfp : (ttW.filter (fun a2 => a2.name ∈ pwave_list)).map Arrival.time =
      [21 / 2, 36 / 5] := rfl
  have hfs : (ttW.filter (fun a3 => a3.name ∈ swave_list)).map Arrival.time = [20] := rfl
  have h := (ps_arrival_times_spec ttW 3).1
    ⟨by rw [show ttW.filter (fun a2 => a2.name ∈ pwave_list) =
        [⟨"P", 21 / 2⟩, ⟨"PP", 36 / 5⟩] from rfl]; simp,
     by rw [show ttW.filter (fun a3 => a3.name ∈ swave_list) = [⟨"S", 20⟩] from rfl]; simp⟩
  rw [h.1, hfp, hfs, pyMin_cons, pyMin_cons]
  norm_num [List.foldl]

/-- C9: the distance-class policy of `resample`, for channels sharing the
bundle's nominal sampling rate: for `close` and `local` every channel is
truncated to its first `int(1800 · sampling_rate)` samples, the P-coda
streams are the truncated (neither filtered nor decimated) copies, and the
main streams are the truncated copies decimated by factor 2, with
`(sec, cutoff) = (3, 4.0 Hz)` for `close` and `(5, 2.0 Hz)` for `local`;
for `non-local` nothing is truncated, the P-coda streams are decimated by
factor 2 and the main streams by factor 4, with `(sec, cutoff) =
(120, 1.0 Hz)`; the returned P-coda highpass cutoff is `0.5 Hz` for every
class. -/
theorem resample_policy (aa : ℕ → List ℚ → List ℚ) (rt ac : List Trace)
    (hr : ∀ tr ∈ rt ++ ac, tr.rate = (rt.headI).rate) :
    resample aa "close" rt ac =
      some (rt.map (fun tr => decimate aa 2 (traceTrunc (⌊1800 * tr.rate⌋).toNat tr)),
            ac.map (fun tr => decimate aa 2 (traceTrunc (⌊1800 * tr.rate⌋).toNat tr)),
            rt.map (fun tr => traceTrunc (⌊1800 * tr.rate⌋).toNat tr),
            ac.map (fun tr => traceTrunc (⌊1800 * tr.rate⌋).toNat tr),
            3, 4.0, 0.5) ∧
    resample aa "local" rt ac =
      some (rt.map (fun tr => decimate aa 2 (traceTrunc (⌊1800 * tr.rate⌋).toNat tr)),
            ac.map (fun tr => decimate aa 2 (traceTrunc (⌊1800 * tr.rate⌋).toNat tr)),
            rt.map (fun tr => traceTrunc (⌊1800 * tr.rate⌋).toNat tr),
            ac.map (fun tr => traceTrunc (⌊1800 * tr.rate⌋).toNat tr),
            5, 2.0, 0.5) ∧
    resample aa "non-local" rt ac =
      some (rt.map (decimate aa 4), ac.map (decimate aa 4),
            rt.map (decimate aa 2), ac.map (decimate aa 2),
            120, 1.0, 0.5) := by
  have hrt : rt.map (traceTrunc (⌊1800 * (rt.headI).rate⌋).toNat) =
      rt.map (fun tr => traceTrunc (⌊1800 * tr.rate⌋).toNat tr) :=
    List.map_congr_left (fun tr htr => by
      rw [hr tr (List.mem_append_left _ htr)])
  have hac : ac.map (traceTrunc (⌊1800 * (rt.headI).rate⌋).toNat) =
      ac.map (fun tr => traceTrunc (⌊1800 * tr.rate⌋).toNat tr) :=
    List.map_congr_left (fun tr htr => by
      rw [hr tr (List.mem_append_right _ htr)])
  have hrt2 : (rt.map (traceTrunc (⌊1800 * (rt.headI).rate⌋).toNat)).map (decimate aa 2) =
      rt.map (fun tr => decimate aa 2 (traceTrunc (⌊1800 * tr.rate⌋).toNat tr)) := by
    rw [hrt, List.map_map]
    exact List.map_congr_left (fun tr _ => rfl)
  have hac2 : (ac.map (traceTrunc (⌊1800 * (rt.headI).rate⌋).toNat)).map (decimate aa 2) =
      ac.map (fun tr => decimate aa 2 (traceTrunc (⌊1800 * tr.rate⌋).toNat tr)) := by
    rw [hac, List.map_map]
    exact List.map_congr_left (fun tr _ => rfl)
  refine ⟨?_, ?_, ?_⟩
  · simp only [resample, if_true]
    rw [hrt2, hac2, hrt, hac]
    rw [if_neg (show ¬("close" : String) = "local" from by decide),
      if_neg (show ¬("close" : String) = "non-local" from by decide)]
  · simp only [resample, if_true]
    rw [hrt2, hac2, hrt, hac]
  · simp only [resample, if_true]
    rw [if_neg (show ¬("non-local" : String) = "local" from by decide)]

/-- C9 witness: the policy evaluated on a concrete 1 Hz bundle: the close
branch truncates (a no-op on three samples), keeps the truncated copies
for the P-coda and halves the rate of the decimated main copies. -/
theorem resample_policy_witness :
    resample aaId "close" rtW acW =
      some ([⟨0, 1 / 2, [1, 3]⟩],
            [⟨0, 1 / 2, [4, 6]⟩, ⟨0, 1 / 2, [7, 9]⟩, ⟨0, 1 / 2, [10, 12]⟩],
            [⟨0, 1, [1, 2, 3]⟩],
            [⟨0, 1, [4, 5, 6]⟩, ⟨0, 1, [7, 8, 9]⟩, ⟨0, 1, [10, 11, 12]⟩],
            3, 4.0, 0.5) := by
  have hr : ∀ tr ∈ rtW ++ acW, tr.rate = (rtW.headI).rate := by
    intro tr htr
    fin_cases htr <;> rfl
  have h := (resample_policy aaId rtW acW hr).1
  rw [h]
  norm_num [rtW, acW, aaId, decimate, traceTrunc, everyNth, List.enum, List.enumFrom,
    Trace.mk.injEq]

/-- Auxiliary: the `EBA` component of `phase_vel`. -/
theorem phase_vel_snd_eq (rtdata : List ℚ) (rt_SR sec : ℕ)
    (cc rotate1 cs b2 : List ℚ) (b : Bool) (u : ℕ) :
    (phase_vel rtdata rt_SR sec cc rotate1 cs b2 b u).2 =
      if pyMax cs = 0 then none else some (b2.getD (argmaxQ cs) 0) := rfl

/-- Auxiliary: the `corrsum` component of `backas_est`. -/
theorem backas_est_fst_eq (xcorr0 : List ℚ → List ℚ → ℚ)
    (rotT : List ℚ → List ℚ → ℚ → List ℚ) (rt_SR : ℕ) (rtdata acn ace : List ℚ)
    (min_sw max_lwf : ℚ) :
    (backas_est xcorr0 rotT rt_SR rtdata acn ace min_sw max_lwf).1 =
      corrsum_of (backas_corrbaz2 xcorr0 rotT rt_SR rtdata acn ace min_sw max_lwf) := rfl

/-- Auxiliary: the `backas2` component of `backas_est` is the fixed
1°-step grid. -/
theorem backas_est_snd_eq (xcorr0 : List ℚ → List ℚ → ℚ)
    (rotT : List ℚ → List ℚ → ℚ → List ℚ) (rt_SR : ℕ) (rtdata acn ace : List ℚ)
    (min_sw max_lwf : ℚ) :
    (backas_est xcorr0 rotT rt_SR rtdata acn ace min_sw max_lwf).2.1 = backas2_grid := rfl

/-- Auxiliary: the azimuth grid has one row per candidate. -/
theorem backas_corrbaz2_length (xcorr0 : List ℚ → List ℚ → ℚ)
    (rotT : List ℚ → List ℚ → ℚ → List ℚ) (rt_SR : ℕ) (rtdata acn ace : List ℚ)
    (min_sw max_lwf : ℚ) :
    (backas_corrbaz2 xcorr0 rotT rt_SR rtdata acn ace min_sw max_lwf).length = 360 := by
  simp only [backas_corrbaz2, List.length_map, List.length_range]

/-- Auxiliary: `corrsum_of` is one sum per row. -/
theorem corrsum_of_length (cbz : List (List ℚ)) : (corrsum_of cbz).length = cbz.length := by
  simp [corrsum_of]

/-- Auxiliary: the candidate grid holds the whole degrees `0..359`. -/
theorem backas2_grid_getD (k : ℕ) (h : k < 360) : backas2_grid.getD k 0 = (k : ℚ) := by
  rw [show backas2_grid = (List.range 360).map (fun j : ℕ => (j : ℚ)) from rfl]
  rw [getD_map_range _ _ _ _ h]

/-- Auxiliary: indexing a mapped list inside its bounds. -/
theorem getD_map_of_lt {α β : Type} (f : α → β) (l : List α) (j : ℕ) (d : α) (e : β)
    (h : j < l.length) : (l.map f).getD j e = f (l.getD j d) := by
  rw [List.getD_eq_get?, List.get?_map, List.get?_eq_get h,
    List.getD_eq_get?, List.get?_eq_get h]
  rfl

/-- Auxiliary: `getD` inside the bounds returns a list element. -/
theorem getD_mem_of_lt {α : Type} (l : List α) (j : ℕ) (d : α) (h : j < l.length) :
    l.getD j d ∈ l := by
  rw [List.getD_eq_get?, List.get?_eq_get h]
  exact List.get_mem l j h

/-- Auxiliary: `getD` at the first index of a member recovers it. -/
theorem getD_indexOf (l : List ℚ) (a : ℚ) (d : ℚ) (ha : a ∈ l) :
    l.getD (l.indexOf a) d = a := by
  have h := List.indexOf_lt_length.mpr ha
  rw [List.getD_eq_get?, List.get?_eq_get h]
  simp only [Option.getD_some]
  exact List.indexOf_get h

/-- C2: in the fine backazimuth estimation, the score of every candidate
azimuth `j` is the sum over the 30-second sub-windows of the correlation
coefficients that are `≥ 0.9`, the others contributing exactly zero (so
every score is nonnegative); the `EBA` returned by `phase_vel` from the
`backas_est` outputs is `NaN` (`none`) whenever all 360 candidate sums are
zero, and otherwise is a whole-degree candidate whose sum attains the
maximum over all candidates. -/
theorem backas_est_threshold_sum_EBA (xcorr0 : List ℚ → List ℚ → ℚ)
    (rotT : List ℚ → List ℚ → ℚ → List ℚ) (rt_SR : ℕ) (rtdata acn ace : List ℚ)
    (min_sw max_lwf : ℚ) (rtd2 : List ℚ) (SR2 sec2 : ℕ) (cc2 rot2 : List ℚ)
    (b2 : Bool) (u2 : ℕ) :
    (backas_est xcorr0 rotT rt_SR rtdata acn ace min_sw max_lwf).1.length = 360 ∧
    (∀ j, j < 360 →
      (backas_est xcorr0 rotT rt_SR rtdata acn ace min_sw max_lwf).1.getD j 0 =
        (((backas_corrbaz2 xcorr0 rotT rt_SR rtdata acn ace min_sw max_lwf).getD j
            []).map (fun c => if c ≥ 0.9 then c else 0.0)).sum) ∧
    (∀ j, j < 360 →
      0 ≤ (backas_est xcorr0 rotT rt_SR rtdata acn ace min_sw max_lwf).1.getD j 0) ∧
    ((∀ j, j < 360 →
        (backas_est xcorr0 rotT rt_SR rtdata acn ace min_sw max_lwf).1.getD j 0 = 0) →
      (phase_vel rtd2 SR2 sec2 cc2 rot2
        (backas_est xcorr0 rotT rt_SR rtdata acn ace min_sw max_lwf).1
        (backas_est xcorr0 rotT rt_SR rtdata acn ace min_sw max_lwf).2.1 b2 u2).2 =
          none) ∧
    ((∃ j, j < 360 ∧
        0 < (backas_est xcorr0 rotT rt_SR rtdata acn ace min_sw max_lwf).1.getD j 0) →
      ∃ k : ℕ, k < 360 ∧
        (phase_vel rtd2 SR2 sec2 cc2 rot2
          (backas_est xcorr0 rotT rt_SR rtdata acn ace min_sw max_lwf).1
          (backas_est xcorr0 rotT rt_SR rtdata acn ace min_sw max_lwf).2.1 b2 u2).2 =
            some ((k : ℚ)) ∧
        (backas_est xcorr0 rotT rt_SR rtdata acn ace min_sw max_lwf).1.getD k 0 =
          pyMax (backas_est xcorr0 rotT rt_SR rtdata acn ace min_sw max_lwf).1 ∧
        (∀ j, j < 360 →
          (backas_est xcorr0 rotT rt_SR rtdata acn ace min_sw max_lwf).1.getD j 0 ≤
          (backas_est xcorr0 rotT rt_SR rtdata acn ace min_sw max_lwf).1.getD k 0)) := by
  have hlen : (backas_est xcorr0 rotT rt_SR rtdata acn ace min_sw max_lwf).1.length
      = 360 := by
    rw [backas_est_fst_eq, corrsum_of_length, backas_corrbaz2_length]
  have hentry : ∀ j, j < 360 →
      (backas_est xcorr0 rotT rt_SR rtdata acn ace min_sw max_lwf).1.getD j 0 =
        (((backas_corrbaz2 xcorr0 rotT rt_SR rtdata acn ace min_sw max_lwf).getD j
            []).map (fun c => if c ≥ 0.9 then c else 0.0)).sum := by
    intro j hj
    rw [backas_est_fst_eq, corrsum_of]
    rw [getD_map_of_lt _ _ j [] 0
      (by rw [backas_corrbaz2_length]; exact hj)]
  have hnn : ∀ j, j < 360 →
      0 ≤ (backas_est xcorr0 rotT rt_SR rtdata acn ace min_sw max_lwf).1.getD j 0 := by
    intro j hj
    rw [hentry j hj]
    apply List.sum_nonneg
    intro x hx
    rcases List.mem_map.mp hx with ⟨c, _, hc⟩
    by_cases h9 : c ≥ 0.9
    · rw [← hc, if_pos h9]; linarith
    · rw [← hc, if_neg h9]; norm_num
  refine ⟨hlen, hentry, hnn, ?_, ?_⟩
  · intro hall
    rw [phase_vel_snd_eq]
    rw [if_pos ?_]
    have hmem : pyMax (backas_est xcorr0 rotT rt_SR rtdata acn ace min_sw max_lwf).1 ∈
        (backas_est xcorr0 rotT rt_SR rtdata acn ace min_sw max_lwf).1 :=
      pyMax_mem _ (by rw [← List.length_pos, hlen]; norm_num)
    rcases List.mem_iff_getElem.mp hmem with ⟨j, hj, hje⟩
    have hj' : j < 360 := by rw [hlen] at hj; exact hj
    have : (backas_est xcorr0 rotT rt_SR rtdata acn ace min_sw max_lwf).1.getD j 0 =
        pyMax (backas_est xcorr0 rotT rt_SR rtdata acn ace min_sw max_lwf).1 := by
      rw [List.getD_eq_get?, List.get?_eq_get hj]
      simpa using hje
    rw [← this, hall j hj']
  · rintro ⟨j0, hj0, hpos⟩
    rw [phase_vel_snd_eq]
    have hne : (backas_est xcorr0 rotT rt_SR rtdata acn ace min_sw max_lwf).1 ≠ [] := by
      rw [← List.length_pos, hlen]; norm_num
    have hmax0 : 0 <
        pyMax (backas_est xcorr0 rotT rt_SR rtdata acn ace min_sw max_lwf).1 := by
      refine lt_of_lt_of_le hpos (le_pyMax _ _ ?_)
      exact getD_mem_of_lt _ j0 0 (by rw [hlen]; exact hj0)
    rw [if_neg (ne_of_gt hmax0)]
    have hk : argmaxQ (backas_est xcorr0 rotT rt_SR rtdata acn ace min_sw max_lwf).1
        < 360 := by
      have h1 := List.indexOf_lt_length.mpr (pyMax_mem _ hne)
      rw [hlen] at h1
      exact h1
    have harg : (backas_est xcorr0 rotT rt_SR rtdata acn ace min_sw max_lwf).1.getD
        (argmaxQ (backas_est xcorr0 rotT rt_SR rtdata acn ace min_sw max_lwf).1) 0 =
        pyMax (backas_est xcorr0 rotT rt_SR rtdata acn ace min_sw max_lwf).1 :=
      getD_indexOf _ _ _ (pyMax_mem _ hne)
    refine ⟨argmaxQ (backas_est xcorr0 rotT rt_SR rtdata acn ace min_sw max_lwf).1,
      hk, ?_, harg, ?_⟩
    · rw [backas_est_snd_eq, backas2_grid_getD _ hk]
    · intro j hj
      rw [harg]
      exact le_pyMax _ _ (getD_mem_of_lt _ j 0 (by rw [hlen]; exact hj))

/-- C2 witness: with no data in the S-to-surface-wave interval every
candidate sum is zero and the estimated backazimuth is undefined
(`none`). -/
theorem backas_est_threshold_sum_EBA_witness :
    (phase_vel [] 1 1 [] [] (backas_est prodSum zeroRotT 1 [] [] [] 0 30).1
      (backas_est prodSum zeroRotT 1 [] [] [] 0 30).2.1 false 0).2 = none := by
  have h := backas_est_threshold_sum_EBA prodSum zeroRotT 1 [] [] [] 0 30 [] 1 1 [] []
    false 0
  refine h.2.2.2.1 ?_
  intro j hj
  rw [h.2.1 j hj]
  have hps : ∀ a b : ℤ, pySlice [] a b = ([] : List ℚ) := by
    intro a b
    simp [pySlice]
  have hbz : backas_corrbaz2 prodSum zeroRotT 1 [] [] [] 0 30 =
      (List.range 360).map (fun _ => ([] : List ℚ)) := by
    simp only [backas_corrbaz2, hps, List.length_nil, Nat.zero_div, List.range_zero,
      List.map_nil]
  rw [hbz, getD_map_range _ _ _ _ hj]
  simp

/-- C10: whenever the `EBA` returned by `phase_vel` (computed from the
`backas_est` outputs) is defined, it is a whole-degree element of the
fixed 1°-step candidate grid `{0, 1, ..., 359}`, for any input signals. -/
theorem phase_vel_EBA_grid (xcorr0 : List ℚ → List ℚ → ℚ)
    (rotT : List ℚ → List ℚ → ℚ → List ℚ) (rt_SR : ℕ) (rtdata acn ace : List ℚ)
    (min_sw max_lwf : ℚ) (rtd2 : List ℚ) (SR2 sec2 : ℕ) (cc2 rot2 : List ℚ)
    (b2 : Bool) (u2 : ℕ) (v : ℚ)
    (hv : (phase_vel rtd2 SR2 sec2 cc2 rot2
        (backas_est xcorr0 rotT rt_SR rtdata acn ace min_sw max_lwf).1
        (backas_est xcorr0 rotT rt_SR rtdata acn ace min_sw max_lwf).2.1 b2 u2).2 =
          some v) :
    ∃ k : ℕ, k < 360 ∧ v = (k : ℚ) := by
  rw [phase_vel_snd_eq] at hv
  by_cases h0 : pyMax (backas_est xcorr0 rotT rt_SR rtdata acn ace min_sw max_lwf).1 = 0
  · rw [if_pos h0] at hv
    exact absurd hv (by simp)
  · rw [if_neg h0] at hv
    have hne : (backas_est xcorr0 rotT rt_SR rtdata acn ace min_sw max_lwf).1 ≠ [] := by
      intro hnil
      exact h0 (by rw [hnil]; rfl)
    have hk : argmaxQ (backas_est xcorr0 rotT rt_SR rtdata acn ace min_sw max_lwf).1
        < 360 := by
      have := List.indexOf_lt_length.mpr (pyMax_mem _ hne)
      rw [backas_est_fst_eq, corrsum_of_length, backas_corrbaz2_length] at this
      exact this
    refine ⟨argmaxQ (backas_est xcorr0 rotT rt_SR rtdata acn ace min_sw max_lwf).1,
      hk, ?_⟩
    have hgrid : (backas_est xcorr0 rotT rt_SR rtdata acn ace min_sw max_lwf).2.1.getD
        (argmaxQ (backas_est xcorr0 rotT rt_SR rtdata acn ace min_sw max_lwf).1) 0 =
        ((argmaxQ (backas_est xcorr0 rotT rt_SR rtdata acn ace min_sw max_lwf).1 : ℕ)
          : ℚ) := by
      rw [backas_est_snd_eq, backas2_grid_getD _ hk]
    rw [hgrid] at hv
    exact (Option.some.inj hv).symm

/-- C10 witness: a concrete input (30 s of data, every window pair fully
correlated) on which the estimated backazimuth is defined, and is then a
whole-degree grid member by the theorem. -/
theorem phase_vel_EBA_grid_witness :
    ∃ v : ℚ,
      (phase_vel [] 1 1 [] [] (backas_est oneCorr zeroRotT 1 rt30 rt30 rt30 0 30).1
        (backas_est oneCorr zeroRotT 1 rt30 rt30 rt30 0 30).2.1 false 0).2 = some v ∧
      ∃ k : ℕ, k < 360 ∧ v = (k : ℚ) := by
  have hps30 : pySlice rt30 (round ((0 : ℚ) * ((1 : ℕ) : ℚ)))
      (round ((30 : ℚ) * ((1 : ℕ) : ℚ))) = rt30 := by
    rw [show round ((0 : ℚ) * ((1 : ℕ) : ℚ)) = 0 from by norm_num,
      show round ((30 : ℚ) * ((1 : ℕ) : ℚ)) = 30 from by norm_num]
    rw [pySlice_of_nonneg rt30 0 30 le_rfl (by norm_num) (by simp [rt30])]
    simp [rt30]
  have hbz : backas_corrbaz2 oneCorr zeroRotT 1 rt30 rt30 rt30 0 30 =
      (List.range 360).map (fun _ => [(1 : ℚ)]) := by
    simp only [backas_corrbaz2, oneCorr, hps30]
    rw [show rt30.length / (1 * 30) = 1 from by simp [rt30]]
    rfl
  have hcs : (backas_est oneCorr zeroRotT 1 rt30 rt30 rt30 0 30).1 =
      (List.range 360).map (fun _ => (1 : ℚ)) := by
    rw [backas_est_fst_eq, hbz, corrsum_of, List.map_map]
    refine List.map_congr_left ?_
    intro x _
    show (List.map (fun c => if c ≥ 0.9 then c else 0.0) [1]).sum = 1
    norm_num
  have hmax : pyMax (backas_est oneCorr zeroRotT 1 rt30 rt30 rt30 0 30).1 = 1 := by
    rw [hcs]
    have hmem := pyMax_mem ((List.range 360).map (fun _ => (1 : ℚ)))
      (by rw [← List.length_pos, List.length_map, List.length_range]; norm_num)
    rcases List.mem_map.mp hmem with ⟨a, _, hval⟩
    exact hval.symm
  have hEBA : (phase_vel [] 1 1 [] []
      (backas_est oneCorr zeroRotT 1 rt30 rt30 rt30 0 30).1
      (backas_est oneCorr zeroRotT 1 rt30 rt30 rt30 0 30).2.1 false 0).2 =
      some ((backas_est oneCorr zeroRotT 1 rt30 rt30 rt30 0 30).2.1.getD
        (argmaxQ (backas_est oneCorr zeroRotT 1 rt30 rt30 rt30 0 30).1) 0) := by
    rw [phase_vel_snd_eq, if_neg (by rw [hmax]; norm_num)]
  exact ⟨_, hEBA, phase_vel_EBA_grid oneCorr zeroRotT 1 rt30 rt30 rt30 0 30
    [] 1 1 [] [] false 0 _ hEBA⟩

/-- Auxiliary: trimming a trace whose sample grid is aligned with both cut
times: the trimmed trace starts exactly at `t1`, ends exactly at `t2` and
holds `(t2 - t1)·ρ + 1` samples. -/
theorem trimTrace_aligned (tr0 : Trace) (t1 t2 ρ : ℚ) (hρ : 0 < ρ)
    (hrate : tr0.rate = ρ) (k m : ℤ)
    (hk : (t1 - tr0.start) * ρ = (k : ℚ)) (hk0 : 0 ≤ t1 - tr0.start)
    (hm : (t2 - t1) * ρ = (m : ℚ)) (hm0 : 0 ≤ t2 - t1)
    (hend : t2 ≤ traceEnd tr0) :
    (trimTrace t1 t2 tr0).start = t1 ∧
    (trimTrace t1 t2 tr0).rate = ρ ∧
    ((trimTrace t1 t2 tr0).data.length : ℚ) = (t2 - t1) * ρ + 1 ∧
    traceEnd (trimTrace t1 t2 tr0) = t2 := by
  have hρ' : ρ ≠ 0 := ne_of_gt hρ
  have hkz : 0 ≤ k := by
    have : (0 : ℚ) ≤ (k : ℚ) := hk ▸ mul_nonneg hk0 hρ.le
    exact_mod_cast this
  have hmz : 0 ≤ m := by
    have : (0 : ℚ) ≤ (m : ℚ) := hm ▸ mul_nonneg hm0 hρ.le
    exact_mod_cast this
  have hi0 : max 0 (round ((t1 - tr0.start) * tr0.rate)) = k := by
    rw [hrate, hk, round_intCast]
    exact max_eq_right hkz
  have hs1 : tr0.start + (k : ℚ) / tr0.rate = t1 := by
    rw [hrate]
    have hke : (k : ℚ) = (t1 - tr0.start) * ρ := hk.symm
    rw [hke]
    field_simp
  have hlen : k + m + 1 ≤ (tr0.data.length : ℤ) := by
    have h1 : t2 - tr0.start ≤ ((tr0.data.length : ℚ) - 1) / ρ := by
      have := hend
      rw [traceEnd, hrate] at this
      linarith
    have h2 : (t2 - tr0.start) * ρ ≤ (tr0.data.length : ℚ) - 1 :=
      (le_div_iff hρ).mp h1
    have h3 : (t2 - tr0.start) * ρ = (k : ℚ) + (m : ℚ) := by
      have : (t2 - tr0.start) * ρ = (t1 - tr0.start) * ρ + (t2 - t1) * ρ := by ring
      rw [this, hk, hm]
    rw [h3] at h2
    have h4 : (k : ℚ) + (m : ℚ) + 1 ≤ (tr0.data.length : ℚ) := by linarith
    exact_mod_cast h4
  have htrim : trimTrace t1 t2 tr0 =
      { start := t1, rate := tr0.rate,
        data := (tr0.data.drop k.toNat).take (m + 1).toNat } := by
    simp only [trimTrace, hi0, hs1]
    rw [hrate, hm, round_intCast]
  have hlen2 : ((tr0.data.drop k.toNat).take (m + 1).toNat).length = (m + 1).toNat := by
    rw [List.length_take, List.length_drop]
    omega
  refine ⟨by rw [htrim], by rw [htrim]; exact hrate, ?_, ?_⟩
  · rw [htrim]
    show (((tr0.data.drop k.toNat).take (m + 1).toNat).length : ℚ) = (t2 - t1) * ρ + 1
    rw [hlen2, hm]
    have : ((m + 1).toNat : ℚ) = ((m : ℚ) + 1) := by
      have h5 : ((m + 1).toNat : ℤ) = m + 1 := Int.toNat_of_nonneg (by omega)
      exact_mod_cast h5
    rw [this]
  · rw [htrim, traceEnd]
    show t1 + ((((tr0.data.drop k.toNat).take (m + 1).toNat).length : ℚ) - 1) /
      tr0.rate = t2
    rw [hlen2, hrate]
    have hmq : ((m + 1).toNat : ℚ) = (m : ℚ) + 1 := by
      have h5 : ((m + 1).toNat : ℤ) = m + 1 := Int.toNat_of_nonneg (by omega)
      exact_mod_cast h5
    rw [hmq]
    have hdiv : ((m : ℚ) + 1 - 1) / ρ = t2 - t1 := by
      rw [← hm]
      field_simp
    rw [hdiv]
    ring

/-- C7 counterexample: with channels of equal rate but sample grids offset
by `2/5` s, `remove_instr_resp_trim` leaves the rotation channel starting
at `0` and the acceleration channels starting at `2/5`, so the four main
channels do not have identical start timestamps after the trim; the claim
is false on this input. -/
theorem remove_instr_resp_trim_counterexample :
    remove_instr_resp_trim rtM acM [] [] =
      Except.ok ([⟨0, 1, [0, 0, 0]⟩],
        [⟨2 / 5, 1, [0, 0, 0]⟩, ⟨2 / 5, 1, [0, 0, 0]⟩, ⟨2 / 5, 1, [0, 0, 0]⟩], [], []) ∧
    ((0 : ℚ) ≠ 2 / 5) := by
  have hsa : startaim acM rtM = 2 / 5 := by
    norm_num [startaim, acM, rtM, pyMax, List.foldl]
  have hea : endtaim acM rtM = 2 := by
    norm_num [endtaim, acM, rtM, pyMin, traceEnd, List.foldl]
  refine ⟨?_, by norm_num⟩
  unfold remove_instr_resp_trim
  rw [hsa, hea, if_neg (by norm_num)]
  rw [show rtM = [(⟨0, 1, [0, 0, 0]⟩ : Trace)] from rfl,
    show acM = [(⟨2 / 5, 1, [0, 0, 0]⟩ : Trace), ⟨2 / 5, 1, [0, 0, 0]⟩,
      ⟨2 / 5, 1, [0, 0, 0]⟩] from rfl]
  norm_num [trimTrace, round_eq, Trace.mk.injEq]

/-- C7 amended: `remove_instr_resp` trims all four main channels and both
P-coda streams to the common interval `[max of starts, min of ends]` with
nearest-sample rounding, and fails with `DataGapError` exactly when that
interval is inverted; provided additionally that the four main channels
share one sampling rate and their sample grids are aligned with the common
start (integer sample offsets), the four trimmed main channels have
identical start timestamps, identical end timestamps and identical sample
counts. -/
theorem remove_instr_resp_trim_spec (rt ac rt_pcoda ac_pcoda : List Trace) (ρ : ℚ)
    (hρ : 0 < ρ)
    (hrate : ∀ tr ∈ ac ++ rt, tr.rate = ρ)
    (hgrid : ∀ tr ∈ ac ++ rt, ∃ kk : ℤ, (startaim ac rt - tr.start) * ρ = (kk : ℚ))
    (hmain : ac ++ rt ≠ []) :
    ((startaim ac rt ≤ endtaim ac rt) →
      remove_instr_resp_trim rt ac rt_pcoda ac_pcoda =
        Except.ok
          (rt.map (trimTrace (startaim ac rt) (endtaim ac rt)),
           ac.map (trimTrace (startaim ac rt) (endtaim ac rt)),
           rt_pcoda.map (trimTrace (startaim ac rt) (endtaim ac rt)),
           ac_pcoda.map (trimTrace (startaim ac rt) (endtaim ac rt))) ∧
      (∀ tr ∈ (ac ++ rt).map (trimTrace (startaim ac rt) (endtaim ac rt)),
        tr.start = startaim ac rt ∧
        traceEnd tr = endtaim ac rt ∧
        ((tr.data.length : ℚ) = (endtaim ac rt - startaim ac rt) * ρ + 1))) ∧
    ((endtaim ac rt < startaim ac rt) →
      remove_instr_resp_trim rt ac rt_pcoda ac_pcoda = Except.error "DataGapError") := by
  have hρ' : ρ ≠ 0 := ne_of_gt hρ
  constructor
  · intro hok
    constructor
    · unfold remove_instr_resp_trim
      rw [if_neg (not_lt.mpr hok)]
    · intro tr htr
      rcases List.mem_map.mp htr with ⟨tr0, htr0, rfl⟩
      obtain ⟨k, hk⟩ := hgrid tr0 htr0
      have hmape : (ac ++ rt).map traceEnd ≠ [] := by
        simpa using hmain
      have hemem : endtaim ac rt ∈ (ac ++ rt).map traceEnd := pyMin_mem _ hmape
      rcases List.mem_map.mp hemem with ⟨trj, htrj, hje⟩
      obtain ⟨kj, hkj⟩ := hgrid trj htrj
      have hm : (endtaim ac rt - startaim ac rt) * ρ =
          (((trj.data.length : ℤ) - 1 - kj : ℤ) : ℚ) := by
        have h1 : endtaim ac rt = trj.start + ((trj.data.length : ℚ) - 1) / ρ := by
          rw [← hje, traceEnd, hrate trj htrj]
        have hsplit : (endtaim ac rt - startaim ac rt) * ρ =
            (endtaim ac rt - trj.start) * ρ - (startaim ac rt - trj.start) * ρ := by
          ring
        rw [hsplit, hkj, h1]
        have h2 : (trj.start + ((trj.data.length : ℚ) - 1) / ρ - trj.start) * ρ =
            (trj.data.length : ℚ) - 1 := by
          field_simp
          ring
        rw [h2]
        push_cast
        ring
      have hstart_le : tr0.start ≤ startaim ac rt :=
        le_pyMax _ _ (List.mem_map_of_mem Trace.start htr0)
      have hend_ge : endtaim ac rt ≤ traceEnd tr0 :=
        pyMin_le _ _ (List.mem_map_of_mem traceEnd htr0)
      have h := trimTrace_aligned tr0 (startaim ac rt) (endtaim ac rt) ρ hρ
        (hrate tr0 htr0) k ((trj.data.length : ℤ) - 1 - kj) hk
        (by linarith) hm (by linarith) hend_ge
      exact ⟨h.1, h.2.2.2, h.2.2.1⟩
  · intro hlt
    unfold remove_instr_resp_trim
    rw [if_pos hlt]

/-- C7 witness: a concrete grid-aligned bundle at 1 Hz: the common
interval is `[2, 3]` and all four trimmed main channels start at `2`, end
at `3` and hold two samples. -/
theorem remove_instr_resp_trim_spec_witness :
    remove_instr_resp_trim rtW7 acW7 [] [] =
      Except.ok ([⟨2, 1, [6, 7]⟩],
        [⟨2, 1, [3, 4]⟩, ⟨2, 1, [3, 4]⟩, ⟨2, 1, [9, 9]⟩], [], []) := by
  have hsa : startaim acW7 rtW7 = 2 := by
    norm_num [startaim, acW7, rtW7, pyMax, List.foldl]
  have hea : endtaim acW7 rtW7 = 3 := by
    norm_num [endtaim, acW7, rtW7, pyMin, traceEnd, List.foldl]
  have hrate : ∀ tr ∈ acW7 ++ rtW7, tr.rate = 1 := by
    intro tr htr
    fin_cases htr <;> rfl
  have hgrid : ∀ tr ∈ acW7 ++ rtW7, ∃ kk : ℤ,
      (startaim acW7 rtW7 - tr.start) * 1 = (kk : ℚ) := by
    intro tr htr
    fin_cases htr
    · exact ⟨2, by rw [hsa]; norm_num⟩
    · exact ⟨2, by rw [hsa]; norm_num⟩
    · exact ⟨0, by rw [hsa]; norm_num⟩
    · exact ⟨1, by rw [hsa]; norm_num⟩
  have h := (remove_instr_resp_trim_spec rtW7 acW7 [] [] 1 (by norm_num) hrate hgrid
    (by simp [acW7, rtW7])).1 (by rw [hsa, hea]; norm_num)
  rw [h.1, hsa, hea]
  rw [show rtW7 = [(⟨1, 1, [5, 6, 7]⟩ : Trace)] from rfl,
    show acW7 = [(⟨0, 1, [1, 2, 3, 4]⟩ : Trace), ⟨0, 1, [1, 2, 3, 4]⟩,
      ⟨2, 1, [9, 9, 9]⟩] from rfl]
  norm_num [trimTrace, round_eq, Trace.mk.injEq, Int.toNat_ofNat, List.take, List.drop]

end WaveformCompare
